import Mathlib

/-!
Verification development for the mqtt-to-viz repository.

The embedding below translates the two source files:

* `make_files.py` — the 24-hour dataset generator (timeline builder, state
  simulator, production accumulator, sensor synthesizer, event emitter);
* `simple_mqtt_replayer.py` — the timed CSV replayer (`publish_once`).

Modelling conventions:

* Python floats are modelled as `ℚ` (all properties proved here are
  representation independent: monotonicity and the counting arguments use
  only ordered-field reasoning, and the concrete production scenario of §8
  involves only small integers, on which binary floating point is exact).
* Timestamps are modelled by their offset in seconds since local midnight of
  the configured day (the generator uses a single fixed day and a fixed
  +05:30 zone, so offsets are in bijection with the `datetime` values).
* The seeded Mersenne-Twister stream of the `random` module is an external
  collaborator; it is modelled by abstract streams `u : Nat → ℚ` (successive
  results of `random.random()`, consumed at explicitly threaded indices, so
  that draw order is part of the model) and `g : Nat → ℚ` (successive unit
  draws of `random.gauss`).
* The `while accum_cycle >= ideal_ct_s` loop of the source terminates only
  for a positive ideal cycle time; it is modelled with an explicit fuel
  parameter bounding the number of iterations, and every theorem that needs
  the loop to have run to completion carries an explicit fuel hypothesis.
-/

/-! ## Timeline Builder (`make_files.py`, lines 47-70)

`t0 = 00:00:00`, `t1 = 23:59:50` (offset 86390 s); the loop
`while t <= t1: ts_list.append(t); t = t + timedelta(seconds=interval)`.
-/

/-- One step of the timestamp loop; `fuel` bounds the iteration count
(86391 suffices for every positive interval, see `tsLoop_closed`). -/
def tsLoop (interval : Nat) : Nat → Nat → List Nat
  | 0, _ => []
  | fuel + 1, t => if t ≤ 86390 then t :: tsLoop interval fuel (t + interval) else []

/-- `ts_list` of the source: sample offsets of the simulated day. -/
def ts_list (interval : Nat) : List Nat := tsLoop interval 86391 0

lemma tsLoop_of_gt (interval fuel t : Nat) (h : 86390 < t) :
    tsLoop interval fuel t = [] := by
  cases fuel with
  | zero => rfl
  | succ f => simp [tsLoop, Nat.not_le.mpr h]

lemma tsLoop_closed (interval : Nat) (hi : 0 < interval) :
    ∀ fuel t, t ≤ 86390 → (86390 - t) / interval < fuel →
      tsLoop interval fuel t
        = (List.range ((86390 - t) / interval + 1)).map (fun j => t + j * interval) := by
  intro fuel
  induction fuel with
  | zero => intro t _ hf; exact absurd hf (Nat.not_lt_zero _)
  | succ f ih =>
    intro t ht hf
    rw [tsLoop, if_pos ht]
    by_cases hnext : t + interval ≤ 86390
    · have hle : interval ≤ 86390 - t := by omega
      have hdiv : (86390 - t) / interval = (86390 - (t + interval)) / interval + 1 := by
        rw [Nat.div_eq_sub_div hi hle]
        congr 2
        omega
      have hf2 : (86390 - (t + interval)) / interval < f := by omega
      have hr : (List.range ((86390 - (t + interval)) / interval + 1 + 1)).map
            (fun j => t + j * interval)
          = t :: (List.range ((86390 - (t + interval)) / interval + 1)).map
            (fun j => (t + interval) + j * interval) := by
        rw [List.range_succ_eq_map, List.map_cons, List.map_map]
        simp only [Nat.zero_mul, Nat.add_zero]
        congr 1
        apply List.map_congr_left
        intro j _
        simp only [Function.comp_apply, Nat.succ_eq_add_one]
        ring
      rw [ih (t + interval) hnext hf2, hdiv, hr]
    · have hlt : 86390 - t < interval := by omega
      have hdiv : (86390 - t) / interval = 0 := Nat.div_eq_of_lt hlt
      rw [tsLoop_of_gt interval f (t + interval) (by omega), hdiv]
      simp [show List.range 1 = [0] from rfl]

lemma ts_list_eq (interval : Nat) (hi : 0 < interval) :
    ts_list interval = (List.range (86390 / interval + 1)).map (fun j => j * interval) := by
  have h0 : (86390 : Nat) - 0 = 86390 := rfl
  have hb : (86390 - 0) / interval < 86391 := by
    rw [h0]
    exact lt_of_le_of_lt (Nat.div_le_self _ _) (by omega)
  have h := tsLoop_closed interval hi 86391 0 (by omega) hb
  rw [h0] at h
  simpa [ts_list] using h

lemma ts_list_length (interval : Nat) (hi : 0 < interval) :
    (ts_list interval).length = 86390 / interval + 1 := by
  rw [ts_list_eq interval hi]
  simp

/-! ## State Simulator (`make_files.py`, lines 72-103) -/

/-- Minute-of-day of an offset: `t.hour * 60 + t.minute` of line 78. -/
def mmOf (o : Nat) : Nat := o / 3600 * 60 + o % 3600 / 60

/-- Base day profile (lines 79-84); `d` is the `random.random()` draw of the
instant. Codes: 0 STOPPED, 2 RUN, 3 IDLE, 4 FAULT. -/
def baseState (mm : Nat) (d : ℚ) : Nat :=
  if mm < 360 then (if d < 9/10 then 0 else 3)
  else if mm < 1320 then (if d < 9/10 then 2 else 3)
  else (if d < 1/2 then 2 else 3)

/-- Base-profile pass (lines 76-85); the draw index `k` is threaded exactly
as the seeded global stream is consumed: one draw per instant, in order. -/
def baseLoop (u : Nat → ℚ) : List Nat → Nat → List Nat
  | [], _ => []
  | o :: rest, k => baseState (mmOf o) (u k) :: baseLoop u rest (k + 1)

/-- Planned idle windows of line 88: 13:00-13:30 and 20:00-20:15. -/
def planned_windows : List (Nat × Nat) := [(13*60, 13*60+30), (20*60, 20*60+15)]

/-- Fault windows of line 96, as (start minute, duration minutes). -/
def rare_faults : List (Nat × Nat) := [(10*60+15, 3), (19*60+40, 4)]

/-- Membership in a planned window `[a, b)` (line 92: `a <= mm < b`). -/
def inPlanned (ws : List (Nat × Nat)) (mm : Nat) : Bool :=
  ws.any (fun w => decide (w.1 ≤ mm ∧ mm < w.2))

/-- Membership in a fault window `[start, start + dur)` (line 100). -/
def inFault (ws : List (Nat × Nat)) (mm : Nat) : Bool :=
  ws.any (fun w => decide (w.1 ≤ mm ∧ mm < w.1 + w.2))

/-- One override pass: every instant whose minute-of-day matches `w` has its
state forced to `v`. Both source loops (lines 89-93 and 97-101) have this
shape, instantiated below with the planned / fault membership tests. -/
def overlay (w : Nat → Bool) (v : Nat) : List Nat → List Nat → List Nat
  | o :: os, s :: ss => (if w (mmOf o) then v else s) :: overlay w v os ss
  | _, _ => []

/-- The `state_code` array: base profile, then planned-idle pass, then
fault pass (later passes override earlier ones). -/
def state_code (offs : List Nat) (u : Nat → ℚ) : List Nat :=
  overlay (inFault rare_faults) 4 offs
    (overlay (inPlanned planned_windows) 3 offs (baseLoop u offs 0))

lemma baseLoop_length (u : Nat → ℚ) :
    ∀ (os : List Nat) (k : Nat), (baseLoop u os k).length = os.length
  | [], _ => rfl
  | _ :: rest, k => by simp [baseLoop, baseLoop_length u rest (k + 1)]

lemma overlay_length (w : Nat → Bool) (v : Nat) :
    ∀ (os ss : List Nat), (overlay w v os ss).length = min os.length ss.length
  | [], _ => by simp [overlay]
  | _ :: _, [] => by simp [overlay]
  | o :: os, s :: ss => by
      simp only [overlay, List.length_cons, overlay_length w v os ss]
      omega

lemma state_code_length (offs : List Nat) (u : Nat → ℚ) :
    (state_code offs u).length = offs.length := by
  simp [state_code, overlay_length, baseLoop_length]

lemma baseLoop_get (u : Nat → ℚ) :
    ∀ (os : List Nat) (k i : Nat) (h : i < (baseLoop u os k).length)
      (h2 : i < os.length),
      (baseLoop u os k).get ⟨i, h⟩ = baseState (mmOf (os.get ⟨i, h2⟩)) (u (k + i))
  | [], _, i, _, h2 => absurd h2 (Nat.not_lt_zero i)
  | _ :: rest, k, 0, _, _ => by simp [baseLoop]
  | o :: rest, k, i + 1, h, h2 => by
      have := baseLoop_get u rest (k + 1) i (by simpa [baseLoop] using h)
        (by simpa using h2)
      simpa [baseLoop, Nat.add_assoc, Nat.add_comm 1 i] using this

lemma overlay_get (w : Nat → Bool) (v : Nat) :
    ∀ (os ss : List Nat) (i : Nat) (h1 : i < os.length) (h2 : i < ss.length)
      (h : i < (overlay w v os ss).length),
      (overlay w v os ss).get ⟨i, h⟩
        = if w (mmOf (os.get ⟨i, h1⟩)) then v else ss.get ⟨i, h2⟩
  | [], _, i, h1, _, _ => absurd h1 (Nat.not_lt_zero i)
  | _ :: _, [], i, _, h2, _ => absurd h2 (Nat.not_lt_zero i)
  | o :: os, s :: ss, 0, _, _, _ => rfl
  | o :: os, s :: ss, i + 1, h1, h2, h => by
      have := overlay_get w v os ss i (by simpa using h1) (by simpa using h2)
        (by simpa [overlay] using h)
      simpa [overlay] using this

/-- Per-instant characterization of the layered state assignment. -/
lemma state_code_get (offs : List Nat) (u : Nat → ℚ) (i : Nat)
    (ho : i < offs.length) (h : i < (state_code offs u).length) :
    (state_code offs u).get ⟨i, h⟩
      = (if inFault rare_faults (mmOf (offs.get ⟨i, ho⟩)) then 4
         else if inPlanned planned_windows (mmOf (offs.get ⟨i, ho⟩)) then 3
         else baseState (mmOf (offs.get ⟨i, ho⟩)) (u i)) := by
  have hb : i < (baseLoop u offs 0).length := by
    rw [baseLoop_length]; exact ho
  have h1 : i < (overlay (inPlanned planned_windows) 3 offs (baseLoop u offs 0)).length := by
    rw [overlay_length, baseLoop_length]; simpa using ho
  simp only [state_code] at h ⊢
  rw [overlay_get _ _ offs _ i ho h1 h,
    overlay_get _ _ offs _ i ho hb h1,
    baseLoop_get u offs 0 i hb ho]
  simp

/-! ## Production Accumulator (`make_files.py`, lines 103-127) -/

/-- The `running` array of line 103 (`1 if s == 2 else 0`), kept as the
Booleans the source then branches on in `if running[i]:`. -/
def runningOf (states : List Nat) : List Bool := states.map (fun s => s == 2)

/-- Mutable state of the counter loop: `pt`, `pg`, `run_sec_accum`,
`accum_cycle`, plus the index `k` of the next `random.random()` draw. -/
structure CtrState where
  pt : Nat
  pg : Nat
  run_sec_accum : ℚ
  accum_cycle : ℚ
  k : Nat
deriving DecidableEq

/-- Initial counter state (lines 110-113); `k` is the number of draws the
state simulator has already consumed when the counter loop starts. -/
def mkInit (k : Nat) : CtrState :=
  { pt := 0, pg := 0, run_sec_accum := 0, accum_cycle := 0, k := k }

/-- The inner `while accum_cycle >= ideal_ct_s` loop (lines 119-123); each
iteration completes one part and draws once for the reject decision
(`random.random() >= reject_rate` keeps the part good). `fuel` bounds the
iterations: the source loop runs exactly the iterations taken here whenever
the fuel exceeds the iteration count. -/
def cycleLoop (u : Nat → ℚ) (reject_rate ideal_ct_s : ℚ) : Nat → CtrState → CtrState
  | 0, st => st
  | fuel + 1, st =>
    if ideal_ct_s ≤ st.accum_cycle then
      cycleLoop u reject_rate ideal_ct_s fuel
        { st with accum_cycle := st.accum_cycle - ideal_ct_s,
                  pt := st.pt + 1,
                  pg := if reject_rate ≤ u st.k then st.pg + 1 else st.pg,
                  k := st.k + 1 }
    else st

/-- One iteration of the outer `for i in range(n)` loop (lines 115-124). -/
def stepInstant (u : Nat → ℚ) (reject_rate ideal_ct_s : ℚ) (interval fuel : Nat)
    (run : Bool) (st : CtrState) : CtrState :=
  if run then
    cycleLoop u reject_rate ideal_ct_s fuel
      { st with run_sec_accum := st.run_sec_accum + interval,
                accum_cycle := st.accum_cycle + interval }
  else st

/-- The counter loop: the per-instant appended triples
`(parts_total[i], parts_good[i], run_minutes_today[i])` (lines 125-127,
`run_minutes_today` is `run_sec_accum / 60.0`) and the final state. -/
def countersLoop (u : Nat → ℚ) (reject_rate ideal_ct_s : ℚ) (interval fuel : Nat) :
    List Bool → CtrState → List (Nat × Nat × ℚ) × CtrState
  | [], st => ([], st)
  | r :: rest, st =>
    let st2 := stepInstant u reject_rate ideal_ct_s interval fuel r st
    let p := countersLoop u reject_rate ideal_ct_s interval fuel rest st2
    ((st2.pt, st2.pg, st2.run_sec_accum / 60) :: p.1, p.2)

/-! ## Sensor Synthesizer (lines 37-39 and 129-140) -/

/-- `frand(mu, sigma)` is `random.gauss(mu, sigma)`; the gauss generator is
an external collaborator, modelled as `mu + sigma * g k` for a stream `g`
of unit draws, one per call, indices threaded in call order. -/
def frand (g : Nat → ℚ) (k : Nat) (mu sigma : ℚ) : ℚ := mu + sigma * g k

/-- The `motor_current` loop (lines 130-140), one gauss draw per instant. -/
def motorLoop (g : Nat → ℚ) : List Nat → Nat → List ℚ
  | [], _ => []
  | s :: rest, k =>
    (if s = 2 then 10 + frand g k 0 (6/10)
     else if s = 3 then 12/10 + frand g k 0 (2/10)
     else if s = 4 then 3/10 + frand g k 0 (1/10)
     else 2/10 + frand g k 0 (1/10)) :: motorLoop g rest (k + 1)

/-! ## Event Emitter (lines 142-173) -/

/-- Payload `value` variants actually passed to `add_row`. -/
inductive Value where
  | int (n : Int)
  | bool (b : Bool)
  | num (x : ℚ)
deriving DecidableEq

/-- One emitted event: the CSV row fields plus the decoded payload fields
(`ts`, `value`, `q`, optional `unit`); the timestamp is the instant's
offset. -/
structure Event where
  ts : Nat
  topic : String
  site : String
  line : String
  machine : String
  object : String
  metric : String
  value : Value
  q : String
  unit : Option String
deriving DecidableEq

/-- Topic construction (lines 59-61): `root/object/metric` with
`root = symbiotic/site/line/machine`. -/
def topicOf (site line machine object metric : String) : String :=
  "symbiotic/" ++ site ++ "/" ++ line ++ "/" ++ machine ++ "/" ++ object ++ "/" ++ metric

/-- `add_row` (lines 151-161): one CSV row / MQTT message, quality always
`"good"`. -/
def add_row (site line machine : String) (t : Nat) (object metric : String)
    (value : Value) (unit : Option String) : Event :=
  { ts := t, topic := topicOf site line machine object metric,
    site := site, line := line, machine := machine,
    object := object, metric := metric, value := value, q := "good", unit := unit }

/-- The six per-instant rows (lines 167-173), in source order. -/
def instantEvents (site line machine : String)
    (t : Nat) (s : Nat) (run : Bool) (c : Nat × Nat × ℚ) (mc : ℚ) : List Event :=
  [ add_row site line machine t "state" "state_code" (Value.int (s : Int)) none,
    add_row site line machine t "state" "running" (Value.bool run) none,
    add_row site line machine t "counter" "parts_total" (Value.int (c.1 : Int)) (some "count"),
    add_row site line machine t "counter" "parts_good" (Value.int (c.2.1 : Int)) (some "count"),
    add_row site line machine t "kpi" "run_minutes_today" (Value.num c.2.2) (some "min"),
    add_row site line machine t "sensor" "motor_current_a" (Value.num mc) (some "A") ]

/-- Emission of all time-series rows, walking the synchronized per-instant
arrays (the source indexes five equal-length arrays by `i`; here they are
zipped into one list of tuples). -/
def emitAll (site line machine : String) :
    List (Nat × Nat × Bool × (Nat × Nat × ℚ) × ℚ) → List Event
  | [] => []
  | (t, s, r, c, m) :: rest =>
    instantEvents site line machine t s r c m ++ emitAll site line machine rest

/-- Generator configuration surface relevant to the event pipeline (the
date only fixes the absolute day, which the offset model abstracts over). -/
structure Config where
  site : String
  line : String
  machine : String
  interval : Nat
  ideal_ct_s : ℚ
  reject_rate : ℚ

/-- Fuel used by the top-level pipeline for the inner cycle loop; every
theorem whose conclusion depends on the cycle loop having run to completion
states its own explicit fuel bound instead of relying on this constant. -/
def genFuel : Nat := 86400 * 86400

/-- The full generation pipeline of `main` (lines 41-173): the ordered
event sequence produced by one run, as a function of the configuration and
the draw streams `u` (uniform) and `g` (gauss). The one-time config row of
line 164 comes first (`ts_list[0]`; `headD` is equivalent: the list is
nonempty for every positive interval). -/
def events (cfg : Config) (u g : Nat → ℚ) : List Event :=
  let offs := ts_list cfg.interval
  let states := state_code offs u
  let running := runningOf states
  let ctrs := (countersLoop u cfg.reject_rate cfg.ideal_ct_s cfg.interval genFuel
      running (mkInit offs.length)).1
  let motor := motorLoop g states 0
  add_row cfg.site cfg.line cfg.machine (offs.headD 0) "config" "ideal_ct_s"
      (Value.num cfg.ideal_ct_s) (some "s")
    :: emitAll cfg.site cfg.line cfg.machine
      (offs.zip (states.zip (running.zip (ctrs.zip motor))))

/-! ## Replay Engine (`simple_mqtt_replayer.py`, `publish_once`, lines 31-47) -/

/-- One CSV row as the replayer reads it; `ts` is the result of
`datetime.fromisoformat(row["ts_iso"])` in seconds, `none` when parsing
raised (the `except` branch, line 41). -/
structure Row where
  ts : Option ℚ
  topic : String
  payload : String

/-- Observable actions of one replay pass: suspensions and publishes. -/
inductive RAction where
  | sleep (d : ℚ)
  | publish (topic payload : String)
deriving DecidableEq

/-- `publish_once` (lines 31-47): `prev` starts as `None` each pass; a
sleep of `dt / max(speed, 0.001)` happens only when both `prev` and the
current timestamp parsed and `dt > 0`; `prev = t` runs unconditionally. -/
def publish_once (speed : ℚ) : List Row → Option ℚ → List RAction
  | [], _ => []
  | row :: rest, prev =>
    (match prev, row.ts with
     | some p, some t =>
        if 0 < t - p then [RAction.sleep ((t - p) / max speed (1/1000))] else []
     | _, _ => [])
    ++ RAction.publish row.topic row.payload :: publish_once speed rest row.ts

/-! ## Counter-loop lemmas -/

lemma cycleLoop_run_sec (u : Nat → ℚ) (rr ict : ℚ) :
    ∀ (fuel : Nat) (st : CtrState),
      (cycleLoop u rr ict fuel st).run_sec_accum = st.run_sec_accum
  | 0, _ => rfl
  | fuel + 1, st => by
      rw [cycleLoop]
      split
      · exact cycleLoop_run_sec u rr ict fuel _
      · rfl

lemma cycleLoop_mono (u : Nat → ℚ) (rr ict : ℚ) :
    ∀ (fuel : Nat) (st : CtrState),
      st.pt ≤ (cycleLoop u rr ict fuel st).pt
      ∧ st.pg ≤ (cycleLoop u rr ict fuel st).pg
      ∧ st.k ≤ (cycleLoop u rr ict fuel st).k
      ∧ (st.pg ≤ st.pt →
          (cycleLoop u rr ict fuel st).pg ≤ (cycleLoop u rr ict fuel st).pt)
  | 0, _ => ⟨le_refl _, le_refl _, le_refl _, fun h => h⟩
  | fuel + 1, st => by
      rw [cycleLoop]
      split
      · have hrec := cycleLoop_mono u rr ict fuel
          { st with accum_cycle := st.accum_cycle - ict,
                    pt := st.pt + 1,
                    pg := if rr ≤ u st.k then st.pg + 1 else st.pg,
                    k := st.k + 1 }
        refine ⟨le_trans (Nat.le_add_right st.pt 1) hrec.1,
          le_trans ?_ hrec.2.1,
          le_trans (Nat.le_add_right st.k 1) hrec.2.2.1,
          fun hle => hrec.2.2.2 ?_⟩
        · show st.pg ≤ if rr ≤ u st.k then st.pg + 1 else st.pg
          split <;> omega
        · show (if rr ≤ u st.k then st.pg + 1 else st.pg) ≤ st.pt + 1
          split <;> omega
      · exact ⟨le_refl _, le_refl _, le_refl _, fun h => h⟩

lemma stepInstant_mono (u : Nat → ℚ) (rr ict : ℚ) (itv fuel : Nat)
    (run : Bool) (st : CtrState) :
    st.pt ≤ (stepInstant u rr ict itv fuel run st).pt
    ∧ st.pg ≤ (stepInstant u rr ict itv fuel run st).pg
    ∧ st.k ≤ (stepInstant u rr ict itv fuel run st).k
    ∧ (st.pg ≤ st.pt →
        (stepInstant u rr ict itv fuel run st).pg
          ≤ (stepInstant u rr ict itv fuel run st).pt)
    ∧ (stepInstant u rr ict itv fuel run st).run_sec_accum
        = st.run_sec_accum + (if run then (itv : ℚ) else 0) := by
  cases run with
  | false =>
    simp only [stepInstant, Bool.false_eq_true, if_false]
    exact ⟨le_refl _, le_refl _, le_refl _, fun h => h, by simp⟩
  | true =>
    simp only [stepInstant, if_true]
    have hm := cycleLoop_mono u rr ict fuel
      { st with run_sec_accum := st.run_sec_accum + (itv : ℚ),
                accum_cycle := st.accum_cycle + (itv : ℚ) }
    have hs := cycleLoop_run_sec u rr ict fuel
      { st with run_sec_accum := st.run_sec_accum + (itv : ℚ),
                accum_cycle := st.accum_cycle + (itv : ℚ) }
    obtain ⟨h1, h2, h3, h4⟩ := hm
    simp only at h1 h2 h3 h4 hs
    exact ⟨h1, h2, h3, h4, by rw [hs]⟩

lemma stepInstant_run_sec_mono (u : Nat → ℚ) (rr ict : ℚ) (itv fuel : Nat)
    (run : Bool) (st : CtrState) :
    st.run_sec_accum ≤ (stepInstant u rr ict itv fuel run st).run_sec_accum := by
  have h := (stepInstant_mono u rr ict itv fuel run st).2.2.2.2
  rw [h]
  cases run <;> simp [Nat.cast_nonneg]

lemma countersLoop_length (u : Nat → ℚ) (rr ict : ℚ) (itv fuel : Nat) :
    ∀ (l : List Bool) (st : CtrState),
      ((countersLoop u rr ict itv fuel l st).1).length = l.length
  | [], _ => rfl
  | r :: rest, st => by
      simp [countersLoop, countersLoop_length u rr ict itv fuel rest _]

lemma countersLoop_append (u : Nat → ℚ) (rr ict : ℚ) (itv fuel : Nat) :
    ∀ (a b : List Bool) (st : CtrState),
      countersLoop u rr ict itv fuel (a ++ b) st
        = ((countersLoop u rr ict itv fuel a st).1
            ++ (countersLoop u rr ict itv fuel b
                  (countersLoop u rr ict itv fuel a st).2).1,
           (countersLoop u rr ict itv fuel b
              (countersLoop u rr ict itv fuel a st).2).2)
  | [], b, st => by simp [countersLoop]
  | r :: rest, b, st => by
      simp only [List.cons_append, countersLoop, List.append_eq,
        countersLoop_append u rr ict itv fuel rest b
          (stepInstant u rr ict itv fuel r st)]

lemma countersLoop_final_mono (u : Nat → ℚ) (rr ict : ℚ) (itv fuel : Nat) :
    ∀ (l : List Bool) (st : CtrState),
      st.pt ≤ (countersLoop u rr ict itv fuel l st).2.pt
      ∧ st.pg ≤ (countersLoop u rr ict itv fuel l st).2.pg
      ∧ st.run_sec_accum ≤ (countersLoop u rr ict itv fuel l st).2.run_sec_accum
      ∧ st.k ≤ (countersLoop u rr ict itv fuel l st).2.k
      ∧ (st.pg ≤ st.pt →
          (countersLoop u rr ict itv fuel l st).2.pg
            ≤ (countersLoop u rr ict itv fuel l st).2.pt)
  | [], _ => ⟨le_refl _, le_refl _, le_refl _, le_refl _, fun h => h⟩
  | r :: rest, st => by
      have hstep := stepInstant_mono u rr ict itv fuel r st
      have hrs := stepInstant_run_sec_mono u rr ict itv fuel r st
      have ih := countersLoop_final_mono u rr ict itv fuel rest
        (stepInstant u rr ict itv fuel r st)
      simp only [countersLoop]
      obtain ⟨a1, a2, a3, a4, a5⟩ := hstep
      obtain ⟨b1, b2, b3, b4, b5⟩ := ih
      exact ⟨le_trans a1 b1, le_trans a2 b2, le_trans hrs b3, le_trans a3 b4,
        fun h => b5 (a4 h)⟩

lemma countersLoop_get (u : Nat → ℚ) (rr ict : ℚ) (itv fuel : Nat) :
    ∀ (l : List Bool) (st : CtrState) (i : Nat)
      (h : i < ((countersLoop u rr ict itv fuel l st).1).length),
      (countersLoop u rr ict itv fuel l st).1.get ⟨i, h⟩
        = ((countersLoop u rr ict itv fuel (l.take (i + 1)) st).2.pt,
           (countersLoop u rr ict itv fuel (l.take (i + 1)) st).2.pg,
           (countersLoop u rr ict itv fuel (l.take (i + 1)) st).2.run_sec_accum / 60)
  | [], _, i, h => by simp [countersLoop] at h
  | r :: rest, st, 0, h => by
      simp [countersLoop]
  | r :: rest, st, i + 1, h => by
      have ih := countersLoop_get u rr ict itv fuel rest
        (stepInstant u rr ict itv fuel r st) i
        (by simpa [countersLoop] using h)
      simpa [countersLoop, List.take_succ_cons] using ih

/-! ## The `interval = 10`, `ideal_ct_s = 12` production scenario -/

/-- Closed form of one running instant at `interval = 10` and
`ideal_ct_s = 12` when the cycle accumulator lies in `[0, 12)`: at most one
part completes, and the accumulator stays in `[0, 12)`. -/
lemma step_run_spec (u : Nat → ℚ) (rr : ℚ) (fuel : Nat) (hf : 2 ≤ fuel)
    (st : CtrState) (h0 : 0 ≤ st.accum_cycle) (h1 : st.accum_cycle < 12) :
    stepInstant u rr 12 10 fuel true st
      = if st.accum_cycle < 2
        then { st with run_sec_accum := st.run_sec_accum + 10,
                       accum_cycle := st.accum_cycle + 10 }
        else { st with run_sec_accum := st.run_sec_accum + 10,
                       accum_cycle := st.accum_cycle - 2,
                       pt := st.pt + 1,
                       pg := if rr ≤ u st.k then st.pg + 1 else st.pg,
                       k := st.k + 1 } := by
  obtain ⟨f, rfl⟩ : ∃ f, fuel = f + 2 := ⟨fuel - 2, by omega⟩
  simp only [stepInstant, if_true]
  by_cases hc : st.accum_cycle < 2
  · rw [if_pos hc, cycleLoop, if_neg (by push_cast; linarith)]
    rw [CtrState.mk.injEq]
    refine ⟨rfl, rfl, by push_cast; ring, by push_cast; ring, rfl⟩
  · have hc2 : 2 ≤ st.accum_cycle := not_lt.mp hc
    rw [if_neg hc, cycleLoop, if_pos (by push_cast; linarith), cycleLoop,
      if_neg (by push_cast; linarith)]
    rw [CtrState.mk.injEq]
    refine ⟨rfl, rfl, by push_cast; ring, by push_cast; ring, rfl⟩

/-- Net effect of `j` consecutive RUN instants at `interval = 10`,
`ideal_ct_s = 12`: seconds balance parts, the accumulator stays in
`[0, 12)`, and `pt` never decreases. -/
lemma runBlock_invariant (u : Nat → ℚ) (rr : ℚ) (fuel : Nat) (hf : 2 ≤ fuel) :
    ∀ (j : Nat) (st : CtrState), 0 ≤ st.accum_cycle → st.accum_cycle < 12 →
      st.accum_cycle + 10 * j
          = (countersLoop u rr 12 10 fuel (List.replicate j true) st).2.accum_cycle
            + 12 * (((countersLoop u rr 12 10 fuel (List.replicate j true) st).2.pt : ℚ)
                     - (st.pt : ℚ))
      ∧ 0 ≤ (countersLoop u rr 12 10 fuel (List.replicate j true) st).2.accum_cycle
      ∧ (countersLoop u rr 12 10 fuel (List.replicate j true) st).2.accum_cycle < 12
      ∧ st.pt ≤ (countersLoop u rr 12 10 fuel (List.replicate j true) st).2.pt := by
  intro j
  induction j with
  | zero =>
    intro st h0 h1
    simp only [List.replicate, countersLoop]
    refine ⟨by push_cast; ring, h0, h1, le_refl _⟩
  | succ j ih =>
    intro st h0 h1
    rw [List.replicate_succ]
    simp only [countersLoop]
    rw [step_run_spec u rr fuel hf st h0 h1]
    by_cases hc : st.accum_cycle < 2
    · rw [if_pos hc]
      obtain ⟨e1, e2, e3, e4⟩ := ih
        { st with run_sec_accum := st.run_sec_accum + 10,
                  accum_cycle := st.accum_cycle + 10 }
        (by simp only; linarith) (by simp only; linarith)
      simp only at e1 e2 e3 e4
      refine ⟨?_, e2, e3, e4⟩
      push_cast at e1 ⊢
      linarith
    · have hc2 : 2 ≤ st.accum_cycle := not_lt.mp hc
      rw [if_neg hc]
      obtain ⟨e1, e2, e3, e4⟩ := ih
        { st with run_sec_accum := st.run_sec_accum + 10,
                  accum_cycle := st.accum_cycle - 2,
                  pt := st.pt + 1,
                  pg := if rr ≤ u st.k then st.pg + 1 else st.pg,
                  k := st.k + 1 }
        (by simp only; linarith) (by simp only; linarith)
      simp only at e1 e2 e3 e4
      refine ⟨?_, e2, e3, by omega⟩
      push_cast at e1 ⊢
      linarith

/-- Through any run/stop prefix at `interval = 10`, `ideal_ct_s = 12`, the
cycle accumulator stays in `[0, 12)`. -/
lemma accum_invariant (u : Nat → ℚ) (rr : ℚ) (fuel : Nat) (hf : 2 ≤ fuel) :
    ∀ (l : List Bool) (st : CtrState), 0 ≤ st.accum_cycle → st.accum_cycle < 12 →
      0 ≤ (countersLoop u rr 12 10 fuel l st).2.accum_cycle
      ∧ (countersLoop u rr 12 10 fuel l st).2.accum_cycle < 12
  | [], st => fun h0 h1 => ⟨h0, h1⟩
  | r :: rest, st => by
    intro h0 h1
    simp only [countersLoop]
    cases r with
    | false =>
      have hstep : stepInstant u rr 12 10 fuel false st = st := by
        simp [stepInstant]
      rw [hstep]
      exact accum_invariant u rr fuel hf rest st h0 h1
    | true =>
      rw [step_run_spec u rr fuel hf st h0 h1]
      by_cases hc : st.accum_cycle < 2
      · rw [if_pos hc]
        exact accum_invariant u rr fuel hf rest _ (by simp only; linarith)
          (by simp only; linarith)
      · have hc2 : 2 ≤ st.accum_cycle := not_lt.mp hc
        rw [if_neg hc]
        exact accum_invariant u rr fuel hf rest _ (by simp only; linarith)
          (by simp only; linarith)

/-! ## Emitter lemmas -/

lemma motorLoop_length (g : Nat → ℚ) :
    ∀ (ss : List Nat) (k : Nat), (motorLoop g ss k).length = ss.length
  | [], _ => rfl
  | _ :: rest, k => by simp [motorLoop, motorLoop_length g rest (k + 1)]

lemma emitAll_length (site line machine : String) :
    ∀ (l : List (Nat × Nat × Bool × (Nat × Nat × ℚ) × ℚ)),
      (emitAll site line machine l).length = 6 * l.length
  | [] => rfl
  | (t, s, r, c, m) :: rest => by
      simp only [emitAll, instantEvents, List.length_append, List.length_cons,
        List.length_nil, emitAll_length site line machine rest]
      omega

lemma emitAll_countP_config (site line machine : String) :
    ∀ (l : List (Nat × Nat × Bool × (Nat × Nat × ℚ) × ℚ)),
      (emitAll site line machine l).countP (fun e => decide (e.object = "config")) = 0
  | [] => rfl
  | (t, s, r, c, m) :: rest => by
      simp only [emitAll]
      rw [List.countP_append, emitAll_countP_config site line machine rest]
      rfl

lemma emitAll_slice (site line machine : String) :
    ∀ (l : List (Nat × Nat × Bool × (Nat × Nat × ℚ) × ℚ)) (i : Nat), i < l.length →
      (((emitAll site line machine l).drop (6 * i)).take 6).map
          (fun e => (e.object, e.metric))
        = [("state", "state_code"), ("state", "running"),
           ("counter", "parts_total"), ("counter", "parts_good"),
           ("kpi", "run_minutes_today"), ("sensor", "motor_current_a")]
  | [], i, h => absurd h (Nat.not_lt_zero i)
  | (t, s, r, c, m) :: rest, 0, _ => rfl
  | (t, s, r, c, m) :: rest, i + 1, h => by
      have h2 : i < rest.length := by simpa using h
      have step : (emitAll site line machine ((t, s, r, c, m) :: rest)).drop (6 * (i + 1))
          = (emitAll site line machine rest).drop (6 * i) := by
        have hmul : 6 * (i + 1) = 6 + 6 * i := by ring
        rw [hmul, ← List.drop_drop]
        rfl
      rw [step]
      exact emitAll_slice site line machine rest i h2

/-! ## Draw-stream dependency lemmas -/

lemma baseLoop_congr (u1 u2 : Nat → ℚ) :
    ∀ (os : List Nat) (k : Nat),
      (∀ j, k ≤ j → j < k + os.length → u1 j = u2 j) →
      baseLoop u1 os k = baseLoop u2 os k
  | [], _, _ => rfl
  | o :: rest, k, h => by
      simp only [baseLoop]
      rw [h k (le_refl k) (by simp only [List.length_cons]; omega),
        baseLoop_congr u1 u2 rest (k + 1)
          (fun j hj1 hj2 => h j (by omega)
            (by simp only [List.length_cons]; omega))]

lemma state_code_congr (offs : List Nat) (u1 u2 : Nat → ℚ)
    (h : ∀ j, j < offs.length → u1 j = u2 j) :
    state_code offs u1 = state_code offs u2 := by
  unfold state_code
  rw [baseLoop_congr u1 u2 offs 0 (fun j _ hj2 => h j (by omega))]

lemma cycleLoop_congr (u1 u2 : Nat → ℚ) (rr ict : ℚ) :
    ∀ (fuel : Nat) (st : CtrState), (∀ j, st.k ≤ j → u1 j = u2 j) →
      cycleLoop u1 rr ict fuel st = cycleLoop u2 rr ict fuel st
  | 0, _, _ => rfl
  | fuel + 1, st, h => by
      rw [cycleLoop, cycleLoop]
      by_cases hcond : ict ≤ st.accum_cycle
      · rw [if_pos hcond, if_pos hcond, h st.k (le_refl _)]
        exact cycleLoop_congr u1 u2 rr ict fuel _
          (fun j hj => h j (le_trans (Nat.le_succ st.k) hj))
      · rw [if_neg hcond, if_neg hcond]

lemma stepInstant_congr (u1 u2 : Nat → ℚ) (rr ict : ℚ) (itv fuel : Nat)
    (run : Bool) (st : CtrState) (h : ∀ j, st.k ≤ j → u1 j = u2 j) :
    stepInstant u1 rr ict itv fuel run st = stepInstant u2 rr ict itv fuel run st := by
  cases run with
  | false => rfl
  | true =>
    simp only [stepInstant, if_true]
    exact cycleLoop_congr u1 u2 rr ict fuel _ h

lemma countersLoop_congr (u1 u2 : Nat → ℚ) (rr ict : ℚ) (itv fuel : Nat) :
    ∀ (l : List Bool) (st : CtrState), (∀ j, st.k ≤ j → u1 j = u2 j) →
      countersLoop u1 rr ict itv fuel l st = countersLoop u2 rr ict itv fuel l st
  | [], _, _ => rfl
  | r :: rest, st, h => by
      simp only [countersLoop]
      rw [stepInstant_congr u1 u2 rr ict itv fuel r st h,
        countersLoop_congr u1 u2 rr ict itv fuel rest _
          (fun j hj => h j
            (le_trans (stepInstant_mono u2 rr ict itv fuel r st).2.2.1 hj))]

/-! ## Claim C1 -/

/-- C1 (counterexample): with the positive sampling interval 3 s the
timeline length is 28797, not `floor (86400 / 3) = 28800` as claimed: the
source stops the day at 23:59:50, not at the last instant before
midnight. -/
theorem c1_length_counterexample : ¬ ((ts_list 3).length = 86400 / 3) := by
  rw [ts_list_length 3 (by omega)]
  omega

/-- C1 (amended): for every positive sampling interval the Timeline Builder
produces the ordered sequence `0, interval, 2·interval, …` — spaced exactly
`interval` seconds apart, no gaps or duplicates — of length
`floor (86390 / interval) + 1` (the source caps the day at 23:59:50; this
equals `floor (86400 / interval)` exactly when one multiple of `interval`
lies in `(86390, 86400]`, as for the default 10 s interval). -/
theorem c1_amended_timeline (interval : Nat) (h : 0 < interval) :
    (ts_list interval).length = 86390 / interval + 1
    ∧ ∀ (i : Nat) (hi : i < (ts_list interval).length),
        (ts_list interval).get ⟨i, hi⟩ = i * interval := by
  refine ⟨ts_list_length interval h, ?_⟩
  intro i hi
  simp only [List.get_eq_getElem]
  simp only [ts_list_eq interval h, List.getElem_map, List.getElem_range]

/-- C1 witness: at the default 10 s interval the amended law gives
8640 instants, the 6th being 50 s. -/
theorem c1_amended_timeline_witness :
    0 < 10 ∧ (ts_list 10).length = 86390 / 10 + 1 :=
  ⟨by omega, (c1_amended_timeline 10 (by omega)).1⟩

/-! ## Claim C2 -/

lemma events_length_aux (cfg : Config) (u g : Nat → ℚ) :
    (events cfg u g).length = 1 + 6 * (ts_list cfg.interval).length := by
  simp only [events, List.length_cons, emitAll_length, List.length_zip,
    state_code_length, List.length_map, countersLoop_length, motorLoop_length,
    runningOf]
  omega

/-- C2 (counterexample): with reject probability 2 — outside `[0, 1]` — the
generator does not abort before producing events: it produces the full
7-event sequence for a one-instant day, so the invalid configuration is
neither detected nor prevented from writing output. -/
theorem c2_no_validation_counterexample :
    ¬ ((2 : ℚ) ≤ 1)
    ∧ (events { site := "blr", line := "line1", machine := "SF-01",
                interval := 86400, ideal_ct_s := 12, reject_rate := 2 }
         (fun _ => 0) (fun _ => 0)).length = 7 := by
  constructor
  · norm_num
  · rfl

/-- C2 (amended): the generator performs no eager validation: for every
configuration with a positive interval and any reject probability —
including values outside `[0, 1]` — generation runs to completion and
emits the full sequence of `1 + 6·n` events. (A non-positive interval is
not detected either: the source timestamp loop then never exits; an
invalid date surfaces as an exception from `datetime`, not as a
configuration check.) -/
theorem c2_amended_generation_total (cfg : Config) (u g : Nat → ℚ)
    (h : 0 < cfg.interval) :
    (events cfg u g).length = 1 + 6 * (ts_list cfg.interval).length :=
  events_length_aux cfg u g

/-- C2 witness: a concrete out-of-range reject probability still yields the
full event sequence. -/
theorem c2_amended_generation_total_witness :
    0 < 86400
    ∧ (events { site := "blr", line := "line1", machine := "SF-01",
                interval := 86400, ideal_ct_s := 12, reject_rate := 5 }
         (fun _ => 0) (fun _ => 0)).length
      = 1 + 6 * (ts_list 86400).length :=
  ⟨by omega,
   c2_amended_generation_total
     { site := "blr", line := "line1", machine := "SF-01",
       interval := 86400, ideal_ct_s := 12, reject_rate := 5 }
     (fun _ => 0) (fun _ => 0) (by decide)⟩

/-! ## Claim C3 -/

/-- C3: in the generated state sequence, an instant whose minute-of-day
lies in some configured fault window `[start, start + duration)` is FAULT
(4) regardless of the base-profile draw, and an instant inside some planned
window `[start, end)` but no fault window is IDLE (3); boundaries are
half-open exactly as the membership tests `inFault` / `inPlanned` encode
the source comparisons `start <= mm < end`. -/
theorem c3_window_overrides (offs : List Nat) (u : Nat → ℚ) (i : Nat)
    (ho : i < offs.length) (h : i < (state_code offs u).length) :
    (inFault rare_faults (mmOf (offs.get ⟨i, ho⟩)) = true →
      (state_code offs u).get ⟨i, h⟩ = 4)
    ∧ (inFault rare_faults (mmOf (offs.get ⟨i, ho⟩)) = false →
       inPlanned planned_windows (mmOf (offs.get ⟨i, ho⟩)) = true →
       (state_code offs u).get ⟨i, h⟩ = 3) := by
  rw [state_code_get offs u i ho h]
  constructor
  · intro hf
    rw [hf]
    simp
  · intro hf hp
    rw [hf, hp]
    simp

/-- C3 witness: 10:16 (offset 36900 s) lies in the fault window starting at
10:15 and is FAULT even under a draw that would give RUN; 13:00 (offset
46800 s) lies in a planned window and no fault window and is IDLE. -/
theorem c3_window_overrides_witness :
    inFault rare_faults (mmOf 36900) = true
    ∧ (state_code [36900] (fun _ => 0)).get ⟨0, by decide⟩ = 4
    ∧ inFault rare_faults (mmOf 46800) = false
    ∧ inPlanned planned_windows (mmOf 46800) = true
    ∧ (state_code [46800] (fun _ => 0)).get ⟨0, by decide⟩ = 3 := by
  refine ⟨by decide, ?_, by decide, by decide, ?_⟩
  · exact (c3_window_overrides [36900] (fun _ => 0) 0 (by decide) (by decide)).1
      (by decide)
  · exact (c3_window_overrides [46800] (fun _ => 0) 0 (by decide) (by decide)).2
      (by decide) (by decide)

/-! ## Claim C4 -/

/-- C4: along any generated timeline (any running sequence processed by the
counter loop from its initial state), `parts_total[i] ≥ parts_good[i] ≥ 0`
at every index, and both counters are non-decreasing in the index. -/
theorem c4_counter_invariants (u : Nat → ℚ) (rr ict : ℚ) (itv fuel k : Nat)
    (l : List Bool) (i j : Nat) (hij : i ≤ j)
    (hi : i < ((countersLoop u rr ict itv fuel l (mkInit k)).1).length)
    (hj : j < ((countersLoop u rr ict itv fuel l (mkInit k)).1).length) :
    0 ≤ ((countersLoop u rr ict itv fuel l (mkInit k)).1.get ⟨i, hi⟩).2.1
    ∧ ((countersLoop u rr ict itv fuel l (mkInit k)).1.get ⟨j, hj⟩).2.1
        ≤ ((countersLoop u rr ict itv fuel l (mkInit k)).1.get ⟨j, hj⟩).1
    ∧ ((countersLoop u rr ict itv fuel l (mkInit k)).1.get ⟨i, hi⟩).1
        ≤ ((countersLoop u rr ict itv fuel l (mkInit k)).1.get ⟨j, hj⟩).1
    ∧ ((countersLoop u rr ict itv fuel l (mkInit k)).1.get ⟨i, hi⟩).2.1
        ≤ ((countersLoop u rr ict itv fuel l (mkInit k)).1.get ⟨j, hj⟩).2.1 := by
  rw [countersLoop_get u rr ict itv fuel l (mkInit k) i hi,
      countersLoop_get u rr ict itv fuel l (mkInit k) j hj]
  dsimp only
  have htake : l.take (j + 1) = l.take (i + 1) ++ (l.drop (i + 1)).take (j - i) := by
    have hj1 : j + 1 = (i + 1) + (j - i) := by omega
    rw [hj1, List.take_add]
  have hpres := countersLoop_final_mono u rr ict itv fuel (l.take (j + 1)) (mkInit k)
  refine ⟨Nat.zero_le _, hpres.2.2.2.2 (le_refl 0), ?_, ?_⟩
  · rw [htake, countersLoop_append]
    exact (countersLoop_final_mono u rr ict itv fuel _ _).1
  · rw [htake, countersLoop_append]
    exact (countersLoop_final_mono u rr ict itv fuel _ _).2.1

/-- C4 witness: one running instant at the default configuration. -/
theorem c4_counter_invariants_witness :
    (0 : Nat) ≤ 0
    ∧ 0 ≤ ((countersLoop (fun _ => 0) 0 12 10 2 [true] (mkInit 0)).1.get
        ⟨0, by decide⟩).2.1 :=
  ⟨le_refl 0,
   (c4_counter_invariants (fun _ => 0) 0 12 10 2 0 [true] 0 0 (le_refl 0)
     (by decide) (by decide)).1⟩

/-! ## Claim C5 -/

/-- C5: `run_minutes_today` is non-decreasing along the timeline, and
between consecutive instants it changes by exactly `interval / 60` when the
later instant's running flag is true and by 0 otherwise — so it increases
only across running instants. -/
theorem c5_run_minutes_invariants (u : Nat → ℚ) (rr ict : ℚ) (itv fuel k : Nat)
    (l : List Bool) :
    (∀ (i j : Nat), i ≤ j →
       ∀ (hi : i < ((countersLoop u rr ict itv fuel l (mkInit k)).1).length)
         (hj : j < ((countersLoop u rr ict itv fuel l (mkInit k)).1).length),
       ((countersLoop u rr ict itv fuel l (mkInit k)).1.get ⟨i, hi⟩).2.2
         ≤ ((countersLoop u rr ict itv fuel l (mkInit k)).1.get ⟨j, hj⟩).2.2)
    ∧ (∀ (i : Nat) (hl : i + 1 < l.length)
         (hi : i < ((countersLoop u rr ict itv fuel l (mkInit k)).1).length)
         (hi2 : i + 1 < ((countersLoop u rr ict itv fuel l (mkInit k)).1).length),
       ((countersLoop u rr ict itv fuel l (mkInit k)).1.get ⟨i + 1, hi2⟩).2.2
         = ((countersLoop u rr ict itv fuel l (mkInit k)).1.get ⟨i, hi⟩).2.2
           + (if l.get ⟨i + 1, hl⟩ then (itv : ℚ) / 60 else 0)) := by
  constructor
  · intro i j hij hi hj
    rw [countersLoop_get u rr ict itv fuel l (mkInit k) i hi,
        countersLoop_get u rr ict itv fuel l (mkInit k) j hj]
    dsimp only
    have htake : l.take (j + 1) = l.take (i + 1) ++ (l.drop (i + 1)).take (j - i) := by
      have hj1 : j + 1 = (i + 1) + (j - i) := by omega
      rw [hj1, List.take_add]
    rw [htake, countersLoop_append]
    exact (div_le_div_iff_of_pos_right (by norm_num : (0 : ℚ) < 60)).mpr
      (countersLoop_final_mono u rr ict itv fuel _ _).2.2.1
  · intro i hl hi hi2
    rw [countersLoop_get u rr ict itv fuel l (mkInit k) i hi,
        countersLoop_get u rr ict itv fuel l (mkInit k) (i + 1) hi2]
    dsimp only
    have htake : l.take (i + 1 + 1) = l.take (i + 1) ++ [l.get ⟨i + 1, hl⟩] := by
      rw [List.take_succ, List.getElem?_eq_getElem hl]
      rfl
    rw [htake, countersLoop_append]
    have hone : (countersLoop u rr ict itv fuel [l.get ⟨i + 1, hl⟩]
        (countersLoop u rr ict itv fuel (l.take (i + 1)) (mkInit k)).2).2
        = stepInstant u rr ict itv fuel (l.get ⟨i + 1, hl⟩)
            (countersLoop u rr ict itv fuel (l.take (i + 1)) (mkInit k)).2 := by
      simp only [countersLoop]
    rw [hone,
      (stepInstant_mono u rr ict itv fuel (l.get ⟨i + 1, hl⟩)
        (countersLoop u rr ict itv fuel (l.take (i + 1)) (mkInit k)).2).2.2.2.2,
      add_div]
    congr 1
    split
    · rfl
    · exact zero_div 60

/-- C5 witness: a stopped instant after a running one leaves the value
unchanged. -/
theorem c5_run_minutes_invariants_witness :
    ((countersLoop (fun _ => 0) 0 12 10 2 [true, false] (mkInit 0)).1.get
        ⟨1, by decide⟩).2.2
      = ((countersLoop (fun _ => 0) 0 12 10 2 [true, false] (mkInit 0)).1.get
          ⟨0, by decide⟩).2.2
        + (if ([true, false] : List Bool).get ⟨1, by decide⟩
           then ((10 : Nat) : ℚ) / 60 else 0) :=
  (c5_run_minutes_invariants (fun _ => 0) 0 12 10 2 0 [true, false]).2 0
    (by decide) (by decide) (by decide)

/-! ## Claim C6 -/

/-- C6: generation is a pure function of the configuration and the
seed-determined draw streams — two runs with the same streams produce
identical event sequences — and the draw order is fixed: the state pass
depends only on the first `n` draws (one per instant, in order), and the
counter loop reads only draws at or after its starting index, so reject
draws follow all state draws. -/
theorem c6_determinism (cfg : Config) (u1 u2 g1 g2 : Nat → ℚ)
    (hu : ∀ n, u1 n = u2 n) (hg : ∀ n, g1 n = g2 n) :
    events cfg u1 g1 = events cfg u2 g2
    ∧ (∀ (offs : List Nat) (v1 v2 : Nat → ℚ),
        (∀ j, j < offs.length → v1 j = v2 j) →
        state_code offs v1 = state_code offs v2)
    ∧ (∀ (rr ict : ℚ) (itv fuel : Nat) (l : List Bool) (st : CtrState)
         (v1 v2 : Nat → ℚ),
        (∀ j, st.k ≤ j → v1 j = v2 j) →
        countersLoop v1 rr ict itv fuel l st = countersLoop v2 rr ict itv fuel l st) := by
  refine ⟨?_, fun offs v1 v2 hv => state_code_congr offs v1 v2 hv,
    fun rr ict itv fuel l st v1 v2 hv =>
      countersLoop_congr v1 v2 rr ict itv fuel l st hv⟩
  rw [funext hu, funext hg]

/-- C6 witness: the determinism law applied to concrete equal streams. -/
theorem c6_determinism_witness :
    events { site := "blr", line := "line1", machine := "SF-01",
             interval := 86400, ideal_ct_s := 12, reject_rate := 1/50 }
        (fun _ => 0) (fun _ => 0)
      = events { site := "blr", line := "line1", machine := "SF-01",
                 interval := 86400, ideal_ct_s := 12, reject_rate := 1/50 }
          (fun _ => 0) (fun _ => 0) :=
  (c6_determinism _ (fun _ => 0) (fun _ => 0) (fun _ => 0) (fun _ => 0)
    (fun _ => rfl) (fun _ => rfl)).1

/-! ## Claim C7 -/

/-- C7: at interval 10 s, ideal cycle time 12 s and reject rate 0, a block
of 120 contiguous RUN samples appended after any prefix of the timeline
increases `parts_total` by exactly 100 (= 1200 s / 12 s); and an interval
longer than the ideal cycle time completes several parts within one sample
(with `ideal_ct_s = 3`, a single 10 s running instant completes 3 parts). -/
theorem c7_production_rate (u : Nat → ℚ) (l : List Bool) (k fuel : Nat)
    (hf : 4 ≤ fuel) :
    (countersLoop u 0 12 10 fuel (l ++ List.replicate 120 true) (mkInit k)).2.pt
      = (countersLoop u 0 12 10 fuel l (mkInit k)).2.pt + 100
    ∧ (stepInstant u 0 3 10 fuel true (mkInit k)).pt = 3 := by
  have hf2 : 2 ≤ fuel := by omega
  constructor
  · rw [countersLoop_append]
    dsimp only
    have hinv := accum_invariant u 0 fuel hf2 l (mkInit k) (le_refl 0)
      (by norm_num [mkInit])
    obtain ⟨e1, e2, e3, e4⟩ := runBlock_invariant u 0 fuel hf2 120
      (countersLoop u 0 12 10 fuel l (mkInit k)).2 hinv.1 hinv.2
    have hd : ((countersLoop u 0 12 10 fuel (List.replicate 120 true)
          (countersLoop u 0 12 10 fuel l (mkInit k)).2).2.pt
        - (countersLoop u 0 12 10 fuel l (mkInit k)).2.pt : Nat) = 100 := by
      have hcast : (((countersLoop u 0 12 10 fuel (List.replicate 120 true)
              (countersLoop u 0 12 10 fuel l (mkInit k)).2).2.pt
            - (countersLoop u 0 12 10 fuel l (mkInit k)).2.pt : Nat) : ℚ)
          = ((countersLoop u 0 12 10 fuel (List.replicate 120 true)
              (countersLoop u 0 12 10 fuel l (mkInit k)).2).2.pt : ℚ)
            - ((countersLoop u 0 12 10 fuel l (mkInit k)).2.pt : ℚ) :=
        Nat.cast_sub e4
      have h120 : ((120 : Nat) : ℚ) = 120 := by norm_num
      rw [h120] at e1
      have h1 : (1188 : ℚ)
          < 12 * (((countersLoop u 0 12 10 fuel (List.replicate 120 true)
                (countersLoop u 0 12 10 fuel l (mkInit k)).2).2.pt
              - (countersLoop u 0 12 10 fuel l (mkInit k)).2.pt : Nat) : ℚ) := by
        rw [hcast]
        linarith [hinv.1, e3]
      have h2 : 12 * (((countersLoop u 0 12 10 fuel (List.replicate 120 true)
                (countersLoop u 0 12 10 fuel l (mkInit k)).2).2.pt
              - (countersLoop u 0 12 10 fuel l (mkInit k)).2.pt : Nat) : ℚ)
          < 1212 := by
        rw [hcast]
        linarith [hinv.2, e2]
      have hn1 : 99 < (countersLoop u 0 12 10 fuel (List.replicate 120 true)
            (countersLoop u 0 12 10 fuel l (mkInit k)).2).2.pt
          - (countersLoop u 0 12 10 fuel l (mkInit k)).2.pt := by
        exact_mod_cast (by linarith :
          (99 : ℚ) < (((countersLoop u 0 12 10 fuel (List.replicate 120 true)
              (countersLoop u 0 12 10 fuel l (mkInit k)).2).2.pt
            - (countersLoop u 0 12 10 fuel l (mkInit k)).2.pt : Nat) : ℚ))
      have hn2 : (countersLoop u 0 12 10 fuel (List.replicate 120 true)
            (countersLoop u 0 12 10 fuel l (mkInit k)).2).2.pt
          - (countersLoop u 0 12 10 fuel l (mkInit k)).2.pt < 101 := by
        exact_mod_cast (by linarith :
          (((countersLoop u 0 12 10 fuel (List.replicate 120 true)
              (countersLoop u 0 12 10 fuel l (mkInit k)).2).2.pt
            - (countersLoop u 0 12 10 fuel l (mkInit k)).2.pt : Nat) : ℚ) < 101)
      omega
    omega
  · obtain ⟨f, rfl⟩ : ∃ f, fuel = f + 4 := ⟨fuel - 4, by omega⟩
    norm_num [stepInstant, cycleLoop, mkInit]

/-- C7 witness: from the initial state, 120 running samples give exactly
100 parts. -/
theorem c7_production_rate_witness :
    4 ≤ 4
    ∧ (countersLoop (fun _ => 0) 0 12 10 4
          ([] ++ List.replicate 120 true) (mkInit 0)).2.pt
      = (countersLoop (fun _ => 0) 0 12 10 4 ([] : List Bool) (mkInit 0)).2.pt
        + 100 :=
  ⟨le_refl 4, (c7_production_rate (fun _ => 0) [] 0 4 (le_refl 4)).1⟩

/-! ## Claim C8 -/

/-- C8: every generated event sequence is exactly one configuration event
(ideal cycle time, carrying the first instant's timestamp) followed by six
events per instant in the fixed order state_code, running, parts_total,
parts_good, run_minutes_today, motor_current_a (the sensor reading). -/
theorem c8_emission_order (cfg : Config) (u g : Nat → ℚ) (h : 0 < cfg.interval) :
    (events cfg u g).countP (fun e => decide (e.object = "config")) = 1
    ∧ (events cfg u g).length = 1 + 6 * (ts_list cfg.interval).length
    ∧ ((events cfg u g).head?).map (fun e => (e.object, e.metric, e.ts))
        = some ("config", "ideal_ct_s", (ts_list cfg.interval).headD 0)
    ∧ ∀ i, i < (ts_list cfg.interval).length →
        (((events cfg u g).drop (1 + 6 * i)).take 6).map
            (fun e => (e.object, e.metric))
          = [("state", "state_code"), ("state", "running"),
             ("counter", "parts_total"), ("counter", "parts_good"),
             ("kpi", "run_minutes_today"), ("sensor", "motor_current_a")] := by
  refine ⟨?_, events_length_aux cfg u g, ?_, ?_⟩
  · simp only [events, List.countP_cons, emitAll_countP_config]
    rfl
  · rfl
  · intro i hi
    have hrows : i < ((ts_list cfg.interval).zip
        ((state_code (ts_list cfg.interval) u).zip
          ((runningOf (state_code (ts_list cfg.interval) u)).zip
            (((countersLoop u cfg.reject_rate cfg.ideal_ct_s cfg.interval genFuel
                (runningOf (state_code (ts_list cfg.interval) u))
                (mkInit (ts_list cfg.interval).length)).1).zip
              (motorLoop g (state_code (ts_list cfg.interval) u) 0))))).length := by
      simp only [List.length_zip, state_code_length, List.length_map,
        countersLoop_length, motorLoop_length, runningOf]
      omega
    have hdrop : (events cfg u g).drop (1 + 6 * i)
        = (emitAll cfg.site cfg.line cfg.machine
            ((ts_list cfg.interval).zip
              ((state_code (ts_list cfg.interval) u).zip
                ((runningOf (state_code (ts_list cfg.interval) u)).zip
                  (((countersLoop u cfg.reject_rate cfg.ideal_ct_s cfg.interval
                      genFuel (runningOf (state_code (ts_list cfg.interval) u))
                      (mkInit (ts_list cfg.interval).length)).1).zip
                    (motorLoop g (state_code (ts_list cfg.interval) u) 0)))))).drop
            (6 * i) := by
      rw [show 1 + 6 * i = 6 * i + 1 from by omega]
      rfl
    rw [hdrop]
    exact emitAll_slice _ _ _ _ i hrows

/-- C8 witness: the emission law at a one-instant day. -/
theorem c8_emission_order_witness :
    (0 : Nat) < 86400
    ∧ (events { site := "blr", line := "line1", machine := "SF-01",
                interval := 86400, ideal_ct_s := 12, reject_rate := 1/50 }
         (fun _ => 0) (fun _ => 0)).countP
        (fun e => decide (e.object = "config")) = 1 :=
  ⟨by omega,
   (c8_emission_order
     { site := "blr", line := "line1", machine := "SF-01",
       interval := 86400, ideal_ct_s := 12, reject_rate := 1/50 }
     (fun _ => 0) (fun _ => 0) (by decide)).1⟩

/-! ## Claim C9 -/

/-- C9: a replayed event whose timestamp failed to parse is delivered
immediately, with no suspension before it and the pass continuing; and in
general any event whose computed delta from the previous timestamp is ≤ 0
is delivered without suspension. -/
theorem c9_malformed_ts_immediate (speed : ℚ) (row : Row) (rest : List Row)
    (prev : Option ℚ) :
    (row.ts = none →
      publish_once speed (row :: rest) prev
        = RAction.publish row.topic row.payload :: publish_once speed rest none)
    ∧ (∀ p t, prev = some p → row.ts = some t → t - p ≤ 0 →
        publish_once speed (row :: rest) prev
          = RAction.publish row.topic row.payload
            :: publish_once speed rest row.ts) := by
  constructor
  · intro hts
    simp only [publish_once, hts]
    cases prev <;> simp
  · intro p t hp ht hle
    simp only [publish_once, hp, ht]
    rw [if_neg (not_lt.mpr hle)]
    simp

/-- C9 witness: a malformed-timestamp row after a parsed one is published
with no sleep in front of it. -/
theorem c9_malformed_ts_immediate_witness :
    (({ ts := none, topic := "b", payload := "pb" } : Row).ts = none)
    ∧ publish_once 1 [{ ts := none, topic := "b", payload := "pb" }] (some 5)
        = [RAction.publish "b" "pb"] := by
  refine ⟨rfl, ?_⟩
  have h := (c9_malformed_ts_immediate 1
    { ts := none, topic := "b", payload := "pb" } [] (some 5)).1 rfl
  simpa using h

/-! ## Claim C10 -/

/-- C10: a parse failure at event k clears the previous-timestamp
reference (`prev = t` runs unconditionally), so event k+1 is also
delivered without suspension even when events k-1 and k+1 both carry valid
timestamps with a positive gap. -/
theorem c10_cleared_prev (speed : ℚ) (r1 r2 r3 : Row) (rest : List Row)
    (a c : ℚ) (h1 : r1.ts = some a) (h2 : r2.ts = none) (h3 : r3.ts = some c)
    (hgap : a < c) :
    publish_once speed (r1 :: r2 :: r3 :: rest) none
      = RAction.publish r1.topic r1.payload
        :: RAction.publish r2.topic r2.payload
        :: RAction.publish r3.topic r3.payload
        :: publish_once speed rest r3.ts := by
  simp only [publish_once, h1, h2, h3]
  simp

/-- C10 witness: rows with timestamps 5 s, malformed, 9 s replay with
three back-to-back publishes and no sleep at all. -/
theorem c10_cleared_prev_witness :
    publish_once 1 [{ ts := some 5, topic := "a", payload := "pa" },
        { ts := none, topic := "b", payload := "pb" },
        { ts := some 9, topic := "c", payload := "pc" }] none
      = [RAction.publish "a" "pa", RAction.publish "b" "pb",
         RAction.publish "c" "pc"] := by
  have h := c10_cleared_prev 1 { ts := some 5, topic := "a", payload := "pa" }
    { ts := none, topic := "b", payload := "pb" }
    { ts := some 9, topic := "c", payload := "pc" } [] 5 9 rfl rfl rfl
    (by norm_num)
  simpa using h
